import Mathlib

/-!
Verification of the linked-CA bootstrap client (authority/linkedca.go) and the
management provisioner conversion (authority/mgmt/provisioner.go) of the
certificates repository, as a shallow embedding in Lean: the pure parsing,
validation and assembly logic is translated function by function; network
effects (dials, RPCs) are abstracted as optional response values supplied by
the caller, and library calls (pem.Decode, x509.ParseCertificate,
sha256/hex, net/url.Parse, x509.CertPool.AddCert) are modelled as documented
on each definition.
-/

set_option maxHeartbeats 1000000
set_option linter.unusedVariables false

deriving instance DecidableEq for Except

namespace StepCerts

/-- A decoded PEM block: its type line, its attached headers and its payload
bytes. A response body is embedded as the ordered list of blocks that
repeated Go pem.Decode calls yield from it (pem.Decode pops the first
decodable block and returns the remainder; no block means nil). -/
structure PemBlock where
  type : String
  headers : List (String × String)
  bytes : List Nat
  deriving DecidableEq

/-- An X.509 certificate abstracted to its raw DER encoding: the Go code under
study uses nothing of a parsed certificate except cert.Raw (the bytes
x509.ParseCertificate consumed). -/
structure Cert where
  raw : List Nat
  deriving DecidableEq

/-- ASCII lower-casing of one character. -/
def asciiLower (c : Char) : Char :=
  if 'A' ≤ c && c ≤ 'Z' then Char.ofNat (c.toNat + 32) else c

/-- Models Go strings.EqualFold restricted to ASCII text (the strings compared
here are hex digests): equality up to case. -/
def eqFold (a b : String) : Bool :=
  a.toList.map asciiLower == b.toList.map asciiLower

/-- The blocks getRootCertificate accepts (linkedca.go line 383): type
CERTIFICATE and no headers; every other block is skipped. -/
def isCertBlock (b : PemBlock) : Bool :=
  b.type == "CERTIFICATE" && b.headers == []

/-- The failure modes of getRootCertificate once the RPC response body is in
hand (each is a distinct fmt.Errorf site in linkedca.go lines 376-401);
connection and RPC errors happen before this loop and are modelled at the
call site in newLinkedCAClient. -/
inductive TrustError
  | parseFailed
  | fingerprintMismatch
  | certificateNotFound
  deriving DecidableEq

/-- The PEM-scanning and fingerprint-verification loop of getRootCertificate
(linkedca.go lines 376-401): scan the blocks in order, skip any block that is
not a header-free CERTIFICATE block, parse the first acceptable one (p models
x509.ParseCertificate, none meaning a parse error), compare the hex SHA-256
digest of its raw bytes (sha256hex models
hex.EncodeToString(sha256.Sum256(cert.Raw))) case-insensitively against the
expected fingerprint, and fail hard on a mismatch; an exhausted scan is the
certificate-not-found error. -/
def getRootCertificate (p : List Nat → Option Cert) (sha256hex : List Nat → String)
    (fingerprint : String) : List PemBlock → Except TrustError Cert
  | [] => .error .certificateNotFound
  | b :: rest =>
    if isCertBlock b = false then getRootCertificate p sha256hex fingerprint rest
    else
      match p b.bytes with
      | none => .error .parseFailed
      | some cert =>
        if eqFold fingerprint (sha256hex cert.raw) = false then .error .fingerprintMismatch
        else .ok cert

/-- getRootCertificate is determined by the first acceptable block of the
response: unacceptable blocks are skipped, and the scan's outcome is the
parse-then-pin check of the first CERTIFICATE block without headers. -/
theorem getRootCertificate_eq_find (p : List Nat → Option Cert) (sha256hex : List Nat → String)
    (fp : String) (blocks : List PemBlock) :
    getRootCertificate p sha256hex fp blocks =
      match blocks.find? isCertBlock with
      | none => .error .certificateNotFound
      | some b =>
        match p b.bytes with
        | none => .error .parseFailed
        | some cert =>
          if eqFold fp (sha256hex cert.raw) = false then .error .fingerprintMismatch
          else .ok cert := by
  induction blocks with
  | nil => rfl
  | cons b rest ih =>
    cases hb : isCertBlock b with
    | false => simp [getRootCertificate, hb, List.find?, ih]
    | true => simp [getRootCertificate, hb, List.find?]

/-- C1: for every PEM response to the trust-anchor fetch, if the first
acceptable certificate block (type CERTIFICATE, no headers) parses to a
certificate whose SHA-256 digest over the raw DER bytes does not equal the
expected fingerprint under case-insensitive hex comparison, then
getRootCertificate fails with the fingerprint-mismatch error — it returns no
certificate, and in particular never a certificate whose digest does not
match, since a returned certificate always comes from this first acceptable
block with this comparison succeeding. -/
theorem claim_C1 (p : List Nat → Option Cert) (sha256hex : List Nat → String)
    (fp : String) (blocks : List PemBlock) (b : PemBlock) (c : Cert)
    (hfind : blocks.find? isCertBlock = some b)
    (hparse : p b.bytes = some c)
    (hne : eqFold fp (sha256hex c.raw) = false) :
    getRootCertificate p sha256hex fp blocks = .error .fingerprintMismatch := by
  rw [getRootCertificate_eq_find, hfind]
  simp [hparse, hne]

/-- A parse model in which every byte list is the raw encoding of a
certificate. -/
def pRaw : List Nat → Option Cert := fun bs => some ⟨bs⟩

/-- A digest model that maps every byte list to the hex string bb. -/
def hexBB : List Nat → String := fun _ => "bb"

/-- A header-free CERTIFICATE block with payload byte 7. -/
def blockCert7 : PemBlock := ⟨"CERTIFICATE", [], [7]⟩

theorem claim_C1_witness :
    getRootCertificate pRaw hexBB "aa" [blockCert7] = .error .fingerprintMismatch :=
  claim_C1 pRaw hexBB "aa" [blockCert7] blockCert7 ⟨[7]⟩ (by decide) (by decide) (by decide)

/-- C7: getRootCertificate scans the PEM block sequence in order and selects
the first block of type CERTIFICATE with no headers, skipping every block of
another type or with headers; its result is entirely the handling of that
block (parse failure, fingerprint mismatch, or success), and if no such block
exists in the response it fails with the certificate-not-found error. -/
theorem claim_C7 (p : List Nat → Option Cert) (sha256hex : List Nat → String)
    (fp : String) (blocks : List PemBlock) :
    getRootCertificate p sha256hex fp blocks =
      match blocks.find? isCertBlock with
      | none => .error .certificateNotFound
      | some b =>
        match p b.bytes with
        | none => .error .parseFailed
        | some cert =>
          if eqFold fp (sha256hex cert.raw) = false then .error .fingerprintMismatch
          else .ok cert :=
  getRootCertificate_eq_find p sha256hex fp blocks

/-- The failure modes of login once the RPC response is in hand (each a
distinct error site in linkedca.go lines 436-476); connection and RPC errors
happen before and are modelled at the call site in newLinkedCAClient. -/
inductive LoginError
  | invalidChainFormat
  | chainParseFailed
  | emptyChain
  | leafParseFailed
  deriving DecidableEq

/-- The first response loop of login (linkedca.go lines 436-452): decode the
PemCertificateChain field block by block; a block of any type other than
CERTIFICATE rejects the response as not a certificate bundle; a block whose
bytes do not parse rejects it as a parse error; otherwise the parsed
certificates are collected in order. -/
def parseBundle (p : List Nat → Option Cert) : List PemBlock → Except LoginError (List Cert)
  | [] => .ok []
  | b :: rest =>
    if b.type == "CERTIFICATE" then
      match p b.bytes with
      | none => .error .chainParseFailed
      | some c =>
        match parseBundle p rest with
        | .error e => .error e
        | .ok cs => .ok (c :: cs)
    else .error .invalidChainFormat

/-- The second response loop of login (linkedca.go lines 462-476): decode the
PemCertificate field; every CERTIFICATE block has its bytes appended to the
certificate list and its parsed form stored as the leaf (the last one wins);
blocks of other types are skipped silently; a CERTIFICATE block that does not
parse is an error. acc and leaf carry cert.Certificate and cert.Leaf through
the loop. -/
def parseLeafField (p : List Nat → Option Cert) :
    List PemBlock → List (List Nat) → Option Cert →
      Except LoginError (List (List Nat) × Option Cert)
  | [], acc, leaf => .ok (acc, leaf)
  | b :: rest, acc, leaf =>
    if b.type == "CERTIFICATE" then
      match p b.bytes with
      | none => .error .leafParseFailed
      | some c => parseLeafField p rest (acc ++ [b.bytes]) (some c)
    else parseLeafField p rest acc leaf

/-- Go tls.Certificate as login builds it: the presented certificate list
(raw DER entries), the parsed leaf, and the private key. -/
structure TLSCertificate (K : Type) where
  certificate : List (List Nat)
  leaf : Option Cert
  privateKey : K
  deriving DecidableEq

/-- Go x509.CertPool.AddCert: appends the certificate to the pool unless an
equal one (same raw bytes) is already there, so adding is idempotent. -/
def addCert (pool : List Cert) (c : Cert) : List Cert :=
  if pool.contains c then pool else pool ++ [c]

/-- The response-processing part of login (linkedca.go lines 435-490): parse
the chain field as a certificate bundle, reject an empty bundle, parse the
leaf field, present the leaf bytes followed by every bundle entry except the
last, and add the last bundle entry (the root) to the trust pool. The request
data (authority, token, csr, signer, endpoint) is what the Go function sends
over the wire; of it only signer flows into the result, as the private key of
the returned tls.Certificate. chainBlocks and leafBlocks are the decoded
PemCertificateChain and PemCertificate fields of the server's response; the
returned pool models the (in Go, in-place mutated) rootCAs argument. -/
def login {K CSR : Type} (p : List Nat → Option Cert)
    (authority token : String) (csr : CSR) (signer : K) (endpoint : String)
    (chainBlocks leafBlocks : List PemBlock) (rootCAs : List Cert) :
    Except LoginError (TLSCertificate K × List Cert) :=
  match parseBundle p chainBlocks with
  | .error e => .error e
  | .ok bundle =>
    if bundle.isEmpty then .error .emptyChain
    else
      match parseLeafField p leafBlocks [] none with
      | .error e => .error e
      | .ok (certList, leaf) =>
        .ok (⟨certList ++ bundle.dropLast.map Cert.raw, leaf, signer⟩,
          match bundle.getLast? with
          | none => rootCAs
          | some r => addCert rootCAs r)

/-- Whether an Except is a success. -/
def isOkE {ε α : Type} : Except ε α → Bool
  | .ok _ => true
  | .error _ => false

/-- A PEM block of type CERTIFICATE with no headers carrying a certificate's
raw bytes (as serializeCertificate would emit it). -/
def mkCertBlock (c : Cert) : PemBlock := ⟨"CERTIFICATE", [], c.raw⟩

theorem parseBundle_map (p : List Nat → Option Cert) (cs : List Cert)
    (hp : ∀ c ∈ cs, p c.raw = some c) :
    parseBundle p (cs.map mkCertBlock) = .ok cs := by
  induction cs with
  | nil => rfl
  | cons c rest ih =>
    have hc : p c.raw = some c := hp c (by simp)
    have hr : ∀ x ∈ rest, p x.raw = some x := fun x hx => hp x (by simp [hx])
    simp [parseBundle, mkCertBlock, hc, ih hr]

theorem parseLeafField_nocert (p : List Nat → Option Cert) (blocks : List PemBlock)
    (hb : ∀ b ∈ blocks, b.type ≠ "CERTIFICATE") :
    ∀ (acc : List (List Nat)) (leaf : Option Cert),
      parseLeafField p blocks acc leaf = .ok (acc, leaf) := by
  induction blocks with
  | nil => intro acc leaf; rfl
  | cons b rest ih =>
    intro acc leaf
    have hbt : (b.type == "CERTIFICATE") = false := by
      simp [hb b (by simp)]
    simp [parseLeafField, hbt, ih (fun x hx => hb x (by simp [hx])) acc leaf]

/-- C2: for every successful login response whose chain field decodes to the
certificates ic ++ [r] (the intermediates followed by the root, at least one
entry) and whose leaf field decodes to the single certificate L, the
presented certificate list of the resulting identity is the leaf followed by
every chain entry except the last, the last chain entry r is added to the
trust pool if not already present, and performing the assembly a second time
with the same root leaves the pool unchanged, so the pool grows by that root
exactly once (idempotent add). -/
theorem claim_C2 {K CSR : Type} (p : List Nat → Option Cert)
    (authority token : String) (csr : CSR) (signer : K) (endpoint : String)
    (ic : List Cert) (r L : Cert) (pool : List Cert)
    (hp : ∀ c ∈ ic ++ [r], p c.raw = some c) (hL : p L.raw = some L) :
    login p authority token csr signer endpoint
        ((ic ++ [r]).map mkCertBlock) [mkCertBlock L] pool =
      .ok (⟨L.raw :: ic.map Cert.raw, some L, signer⟩, addCert pool r) ∧
    login p authority token csr signer endpoint
        ((ic ++ [r]).map mkCertBlock) [mkCertBlock L] (addCert pool r) =
      .ok (⟨L.raw :: ic.map Cert.raw, some L, signer⟩, addCert pool r) ∧
    (addCert pool r).count r = (if r ∈ pool then pool.count r else pool.count r + 1) := by
  have hbundle := parseBundle_map p (ic ++ [r]) hp
  have hleaf : parseLeafField p [mkCertBlock L] [] none = .ok ([L.raw], some L) := by
    simp [parseLeafField, mkCertBlock, hL]
  have hidem : addCert (addCert pool r) r = addCert pool r := by
    by_cases hc : r ∈ pool
    · simp [addCert, hc]
    · simp [addCert, hc]
  have hrun : ∀ pl : List Cert,
      login p authority token csr signer endpoint
          ((ic ++ [r]).map mkCertBlock) [mkCertBlock L] pl =
        .ok (⟨L.raw :: ic.map Cert.raw, some L, signer⟩, addCert pl r) := by
    intro pl
    unfold login
    rw [hbundle, hleaf]
    simp [List.dropLast_concat, List.getLast?_concat]
  refine ⟨hrun pool, ?_, ?_⟩
  · rw [hrun (addCert pool r), hidem]
  · by_cases hc : r ∈ pool
    · simp [addCert, hc]
    · simp [addCert, hc, List.count_append, List.count_eq_zero.mpr hc]

/-- The chain entries used by the assembly witness: one intermediate and one
root. -/
def icW : List Cert := [⟨[1]⟩]

theorem claim_C2_witness :
    login pRaw "a" "t" (0 : Nat) (0 : Nat) "e"
        ((icW ++ [Cert.mk [2]]).map mkCertBlock) [mkCertBlock (Cert.mk [9])] [] =
      .ok (⟨(Cert.mk [9]).raw :: icW.map Cert.raw, some (Cert.mk [9]), (0 : Nat)⟩,
        addCert [] (Cert.mk [2])) :=
  (claim_C2 pRaw "a" "t" (0 : Nat) (0 : Nat) "e" icW (Cert.mk [2]) (Cert.mk [9]) []
    (by decide) (by decide)).1

theorem parseBundle_append_bad (p : List Nat → Option Cert)
    (pre : List PemBlock) (bad : PemBlock) (rest : List PemBlock)
    (hbad : bad.type ≠ "CERTIFICATE") :
    isOkE (parseBundle p (pre ++ bad :: rest)) = false ∧
    ((∀ b ∈ pre, b.type = "CERTIFICATE" ∧ (p b.bytes).isSome = true) →
      parseBundle p (pre ++ bad :: rest) = .error .invalidChainFormat) := by
  induction pre with
  | nil =>
    have hbt : (bad.type == "CERTIFICATE") = false := by simp [hbad]
    constructor
    · simp [parseBundle, hbt, isOkE]
    · intro _; simp [parseBundle, hbt]
  | cons b pre ih =>
    constructor
    · by_cases hbt : (b.type == "CERTIFICATE") = true
      · cases hpb : p b.bytes with
        | none => simp [parseBundle, hbt, hpb, isOkE]
        | some c =>
          have := ih.1
          cases hrec : parseBundle p (pre ++ bad :: rest) with
          | error e => simp [parseBundle, hbt, hpb, hrec, isOkE]
          | ok cs => rw [hrec] at this; simp [isOkE] at this
      · simp at hbt
        have hb : (b.type == "CERTIFICATE") = false := by simp [hbt]
        simp [parseBundle, hb, isOkE]
    · intro hpre
      obtain ⟨hbt, hps⟩ := hpre b (by simp)
      have hbt2 : (b.type == "CERTIFICATE") = true := by simp [hbt]
      cases hpb : p b.bytes with
      | none => rw [hpb] at hps; simp [Option.isSome] at hps
      | some c =>
        have hrec := ih.2 (fun x hx => hpre x (by simp [hx]))
        simp [parseBundle, hbt2, hpb, hrec]

/-- C3 (amended): for every login response, if any PEM block in the
certificate-chain field is not of type CERTIFICATE then login rejects the
whole response with an error — the invalid-chain-format error whenever every
block before the first offending one is a CERTIFICATE block whose bytes
parse (an earlier unparseable CERTIFICATE block is reported as a parse error
instead) — and if the chain field decodes to zero certificate blocks login
fails with the empty-chain error; in all cases no certificate or TLS
configuration is returned. -/
theorem claim_C3 {K CSR : Type} (p : List Nat → Option Cert)
    (authority token : String) (csr : CSR) (signer : K) (endpoint : String)
    (pre : List PemBlock) (bad : PemBlock) (rest leafBlocks : List PemBlock)
    (pool : List Cert)
    (hbad : bad.type ≠ "CERTIFICATE") :
    isOkE (login p authority token csr signer endpoint
        (pre ++ bad :: rest) leafBlocks pool) = false ∧
    ((∀ b ∈ pre, b.type = "CERTIFICATE" ∧ (p b.bytes).isSome = true) →
      login p authority token csr signer endpoint
          (pre ++ bad :: rest) leafBlocks pool = .error .invalidChainFormat) ∧
    login p authority token csr signer endpoint [] leafBlocks pool = .error .emptyChain := by
  refine ⟨?_, ?_, by simp [login, parseBundle]⟩
  · have h := (parseBundle_append_bad p pre bad rest hbad).1
    cases hpb : parseBundle p (pre ++ bad :: rest) with
    | error e => simp [login, hpb, isOkE]
    | ok cs => rw [hpb] at h; simp [isOkE] at h
  · intro hpre
    have h := (parseBundle_append_bad p pre bad rest hbad).2 hpre
    simp [login, h]

/-- A parse model in which no byte list is a certificate. -/
def pNone : List Nat → Option Cert := fun _ => none

/-- A chain whose first block claims to be a certificate but does not parse,
followed by a block of another type. -/
def cexChain : List PemBlock := [⟨"CERTIFICATE", [], [0]⟩, ⟨"JUNK", [], []⟩]

theorem claim_C3_counterexample :
    cexChain.any (fun b => b.type != "CERTIFICATE") = true ∧
    login pNone "a" "t" (0 : Nat) (0 : Nat) "e" cexChain [] [] =
      .error .chainParseFailed ∧
    decide (login pNone "a" "t" (0 : Nat) (0 : Nat) "e" cexChain [] [] =
      .error .invalidChainFormat) = false := by
  refine ⟨by decide, by decide, by decide⟩

theorem claim_C3_witness :
    isOkE (login pNone "a" "t" (0 : Nat) (0 : Nat) "e"
        ([] ++ PemBlock.mk "JUNK" [] [] :: []) [] []) = false :=
  (claim_C3 pNone "a" "t" (0 : Nat) (0 : Nat) "e" [] ⟨"JUNK", [], []⟩ [] [] []
    (by decide)).1

/-- C10: for every login response whose certificate-chain field is a valid
non-empty certificate bundle (decoding to the certificates ic ++ [r]) but
whose leaf-certificate field contains no PEM block of type CERTIFICATE (for
example, an empty string, which decodes to no blocks at all), login does not
fail: it returns a tls.Certificate whose Leaf is nil and whose certificate
list consists only of the intermediate chain entries, with no error reported
for the missing leaf. -/
theorem claim_C10 {K CSR : Type} (p : List Nat → Option Cert)
    (authority token : String) (csr : CSR) (signer : K) (endpoint : String)
    (chainBlocks leafBlocks : List PemBlock) (ic : List Cert) (r : Cert)
    (pool : List Cert)
    (hbundle : parseBundle p chainBlocks = .ok (ic ++ [r]))
    (hleaf : ∀ b ∈ leafBlocks, b.type ≠ "CERTIFICATE") :
    login p authority token csr signer endpoint chainBlocks leafBlocks pool =
      .ok (⟨ic.map Cert.raw, none, signer⟩, addCert pool r) := by
  have h := parseLeafField_nocert p leafBlocks hleaf [] none
  simp [login, hbundle, h, List.dropLast_concat, List.getLast?_concat]

theorem claim_C10_witness :
    login pRaw "a" "t" (0 : Nat) (0 : Nat) "e"
        [mkCertBlock ⟨[2]⟩] [⟨"PRIVATE KEY", [], [5]⟩] [] =
      .ok (⟨List.map Cert.raw [], none, (0 : Nat)⟩, addCert [] ⟨[2]⟩) :=
  claim_C10 pRaw "a" "t" (0 : Nat) (0 : Nat) "e"
    [mkCertBlock ⟨[2]⟩] [⟨"PRIVATE KEY", [], [5]⟩] [] ⟨[2]⟩ []
    (by decide) (by decide)

/-- The token-validation failures of newLinkedCAClient (linkedca.go lines
53-69): each is a distinct errors.New site ("invalid aud claim", "invalid sha
claim", "invalid sans claim", the last raised inside getAuthority). -/
inductive TokenError
  | invalidAud
  | invalidSha
  | invalidSans
  deriving DecidableEq

/-- One hex digit, upper or lower case, as the character class of uuidPattern
(linkedca.go line 29) admits it. -/
def hexDigit (c : Char) : Bool :=
  c.isDigit || ('a' ≤ c && c ≤ 'f') || ('A' ≤ c && c ≤ 'F')

/-- Consume exactly n hex digits from the front, returning the remainder. -/
def hexRun : Nat → List Char → Option (List Char)
  | 0, rest => some rest
  | _ + 1, [] => none
  | n + 1, c :: rest => if hexDigit c then hexRun n rest else none

/-- Consume one dash from the front. -/
def expectDash : List Char → Option (List Char)
  | '-' :: rest => some rest
  | _ => none

/-- The compiled uuidPattern regular expression of linkedca.go line 29:
anchored 8-4-4-4-12 case-insensitive hex groups separated by dashes. -/
def uuidMatch (s : String) : Bool :=
  ((((((((hexRun 8 s.toList).bind expectDash).bind (hexRun 4)).bind expectDash).bind
      (hexRun 4)).bind expectDash).bind (hexRun 4)).bind expectDash).bind (hexRun 12)
    == some []

/-- Whether the first list is a prefix of the second (Go strings.HasPrefix
over the characters; the strings involved are ASCII, so bytes and characters
coincide). -/
def listHasPrefix : List Char → List Char → Bool
  | [], _ => true
  | _ :: _, [] => false
  | a :: as, b :: bs => a == b && listHasPrefix as bs

/-- The 24-byte URN prefix getAuthority scans for (linkedca.go line 343). -/
def authorityURN : List Char := "urn:smallstep:authority:".toList

/-- getAuthority (linkedca.go lines 341-350): scan the SANs in order; for a
SAN carrying the URN prefix whose remainder s[24:] matches uuidPattern,
return that remainder; a prefixed SAN with a malformed remainder is passed
over like any other SAN; an exhausted scan is the invalid-sans error. -/
def getAuthority : List String → Except TokenError String
  | [] => .error .invalidSans
  | s :: rest =>
    if listHasPrefix authorityURN s.toList then
      if uuidMatch (String.mk (s.toList.drop 24)) then .ok (String.mk (s.toList.drop 24))
      else getAuthority rest
    else getAuthority rest

/-- A SAN from which getAuthority extracts an authority id: URN prefix plus
well-formed UUID remainder. -/
def wellFormedAuthoritySAN (s : String) : Bool :=
  listHasPrefix authorityURN s.toList && uuidMatch (String.mk (s.toList.drop 24))

theorem getAuthority_eq_find (sans : List String) :
    getAuthority sans =
      match sans.find? wellFormedAuthoritySAN with
      | some s => .ok (String.mk (s.toList.drop 24))
      | none => .error .invalidSans := by
  induction sans with
  | nil => rfl
  | cons s rest ih =>
    cases hpre : listHasPrefix authorityURN s.toList with
    | true =>
      cases huu : uuidMatch (String.mk (s.toList.drop 24)) with
      | true =>
        simp only [getAuthority, hpre, huu, if_true, List.find?, wellFormedAuthoritySAN,
          Bool.and_self]
      | false =>
        simp only [getAuthority, hpre, huu, if_true, Bool.false_eq_true, if_false,
          List.find?, wellFormedAuthoritySAN, Bool.and_false, ih]
    | false =>
      simp only [getAuthority, hpre, Bool.false_eq_true, if_false, List.find?,
        wellFormedAuthoritySAN, Bool.false_and, ih]

/-- C4 (amended): getAuthority succeeds exactly when at least one well-formed
urn:smallstep:authority:UUID entry exists among the SANs — exactly one is not
required, the first such SAN wins and further ones are ignored — returning
the UUID remainder of the first SAN whose prefix matches and whose remainder
matches the canonical 8-4-4-4-12 case-insensitive hex pattern; absence of any
well-formed match (including a prefixed SAN with a malformed remainder) is
the hard invalid-sans failure, not a default. -/
theorem claim_C4 (sans : List String) :
    getAuthority sans =
      match sans.find? wellFormedAuthoritySAN with
      | some s => .ok (String.mk (s.toList.drop 24))
      | none => .error .invalidSans :=
  getAuthority_eq_find sans

/-- Two distinct SANs both carrying a well-formed authority URN. -/
def sansTwo : List String :=
  ["urn:smallstep:authority:11111111-1111-1111-1111-111111111111",
   "urn:smallstep:authority:22222222-2222-2222-2222-222222222222"]

theorem claim_C4_counterexample :
    sansTwo.countP wellFormedAuthoritySAN = 2 ∧
    getAuthority sansTwo = .ok "11111111-1111-1111-1111-111111111111" := by
  refine ⟨by decide, by decide⟩

/-- The URL structure net/url.Parse yields, restricted to what the client
reads: the scheme, the host (empty when the URL has no authority part) and
the remaining path-like text. -/
structure GoURL where
  scheme : String
  host : String
  path : String
  deriving DecidableEq

/-- One ASCII letter. -/
def isAlphaChar (c : Char) : Bool :=
  ('a' ≤ c && c ≤ 'z') || ('A' ≤ c && c ≤ 'Z')

/-- The characters getScheme admits after the first letter of a scheme. -/
def isSchemeExtra (c : Char) : Bool :=
  c.isDigit || c == '+' || c == '-' || c == '.'

/-- Go net/url getScheme: scan for a colon preceded by a letter-led run of
scheme characters; none models the missing-protocol-scheme error (a leading
colon); some ([], full) means the text has no scheme at all; acc carries the
characters scanned so far (so acc is empty exactly at position zero). -/
def getSchemeAux (full : List Char) (acc : List Char) : List Char → Option (List Char × List Char)
  | [] => some ([], full)
  | c :: rest =>
    if isAlphaChar c then getSchemeAux full (acc ++ [c]) rest
    else if isSchemeExtra c then
      if acc.isEmpty then some ([], full) else getSchemeAux full (acc ++ [c]) rest
    else if c == ':' then
      if acc.isEmpty then none else some (acc, rest)
    else some ([], full)

/-- Percent-escape validity as Go url unescaping checks it: every percent
sign must be followed by two hex digits. -/
def validEscapes : List Char → Bool
  | [] => true
  | '%' :: a :: b :: rest => hexDigit a && hexDigit b && validEscapes rest
  | '%' :: _ => false
  | _ :: rest => validEscapes rest

/-- Cut at the first occurrence of a separator: (before, after) with the
separator dropped; (whole, []) when absent. Models strings.Cut. -/
def cutAt (sep : Char) : List Char → List Char × List Char
  | [] => ([], [])
  | c :: rest =>
    if c == sep then ([], rest)
    else
      let p := cutAt sep rest
      (c :: p.1, p.2)

/-- Split an authority-led remainder at the first slash, keeping the slash in
the second part, as net/url.Parse cuts the authority from the path. -/
def splitAuthority : List Char → List Char × List Char
  | [] => ([], [])
  | c :: rest =>
    if c == '/' then ([], c :: rest)
    else
      let p := splitAuthority rest
      (c :: p.1, p.2)

/-- The host part of an authority: the text after the last at sign (userinfo
is split off at the last at sign, as net/url parseAuthority does). -/
def hostPart (auth : List Char) : List Char :=
  ((cutAt '@' auth.reverse).1).reverse

/-- net/url parseHost for unbracketed hosts: when the host has a colon,
everything after the last one must be a (possibly empty) run of digits — the
optional port; percent escapes in the host must be valid. Bracketed (IPv6)
hosts are outside the modelled fragment. -/
def parseHostModel (auth : List Char) : Option (List Char) :=
  let host := hostPart auth
  if host.head? == some '[' then none
  else if host.contains ':' && !(((cutAt ':' host.reverse).1.reverse).all Char.isDigit) then none
  else if validEscapes host then some host
  else none

/-- Go net/url.Parse, modelled on the absolute-URL path of parse
(viaRequest = false) for the fragment the client exercises: the fragment is
cut at the first hash mark and checked for escape validity, the scheme is
extracted by getScheme (lower-cased), the query is cut at the first question
mark (its contents are not validated at parse time), a remainder that does
not start with a slash is kept whole as a rootless remainder when a scheme is
present and otherwise must not carry a colon in its first segment, a
double-slash remainder (not triple-slash when schemeless) has its authority
split off and host-parsed, and the remaining path is checked for escape
validity. Internationalized and bracketed hosts are outside the modelled
fragment. none models a parse error. -/
def goURLParse (s : String) : Option GoURL :=
  let fragCut := cutAt '#' s.toList
  if validEscapes fragCut.2 = false then none
  else
    match getSchemeAux fragCut.1 [] fragCut.1 with
    | none => none
    | some (sch, afterScheme) =>
      let scheme := String.mk (sch.map asciiLower)
      let rest := (cutAt '?' afterScheme).1
      let noSlash := rest.head? != some '/'
      if noSlash && !sch.isEmpty then some ⟨scheme, "", String.mk rest⟩
      else if noSlash && ((cutAt '/' rest).1).contains ':' then none
      else if (!sch.isEmpty || !listHasPrefix ['/', '/', '/'] rest) &&
          listHasPrefix ['/', '/'] rest then
        let ar := splitAuthority (rest.drop 2)
        match parseHostModel ar.1 with
        | none => none
        | some host =>
          if validEscapes ar.2 then some ⟨scheme, String.mk host, String.mk ar.2⟩ else none
      else if validEscapes rest then some ⟨scheme, "", String.mk rest⟩
      else none

/-- The custom claims newLinkedCAClient reads from the bootstrap token
(linkedCAClaims, linkedca.go lines 37-41, with the registered audience and
subject claims). -/
structure LinkedCAClaims where
  audience : List String
  subject : String
  sans : List String
  sha : String
  deriving DecidableEq

/-- The claim-validation prefix of newLinkedCAClient (linkedca.go lines
53-69): the audience list must have exactly one element, the sha claim must
be non-empty, the audience value must parse as a URL (url.Parse; there is no
check on its host), and the SANs must yield an authority id. Returns the
parsed endpoint URL and the authority id. -/
def validateTokenClaims (c : LinkedCAClaims) : Except TokenError (GoURL × String) :=
  if c.audience.length ≠ 1 then .error .invalidAud
  else if c.sha = "" then .error .invalidSha
  else
    match goURLParse (c.audience.headD "") with
    | none => .error .invalidAud
    | some u =>
      match getAuthority c.sans with
      | .error e => .error e
      | .ok a => .ok (u, a)

theorem getAuthority_error_invalidSans (sans : List String) (e : TokenError)
    (h : getAuthority sans = .error e) : e = .invalidSans := by
  rw [getAuthority_eq_find] at h
  cases hf : sans.find? wellFormedAuthoritySAN with
  | some s => rw [hf] at h; cases h
  | none => rw [hf] at h; cases h; rfl

/-- C5 (amended): the token-validation stage fails with the invalid-audience
error exactly when the audience claim's list length is not 1, or (the sha
claim being non-empty, which is checked first) the single audience value
fails URL parsing. No host component is required: an audience value that
parses to a URL with an empty host is accepted, and its empty host is what
the client later dials. -/
theorem claim_C5 (c : LinkedCAClaims) :
    validateTokenClaims c = .error .invalidAud ↔
      (c.audience.length ≠ 1 ∨
        (c.sha ≠ "" ∧ goURLParse (c.audience.headD "") = none)) := by
  unfold validateTokenClaims
  by_cases hlen : c.audience.length = 1
  · rw [if_neg (fun hn => hn hlen)]
    by_cases hsha : c.sha = ""
    · rw [if_pos hsha]
      simp [hlen, hsha]
    · rw [if_neg hsha]
      cases hu : goURLParse (c.audience.headD "") with
      | none => simp [hlen, hsha]
      | some u =>
        cases ha : getAuthority c.sans with
        | error e =>
          have he := getAuthority_error_invalidSans c.sans e ha
          subst he
          simp [hlen, hsha, hu]
        | ok a => simp [hlen, hsha, hu]
  · rw [if_pos hlen]
    simp [hlen]

/-- Token claims whose single audience value is a parseable URL without any
host component. -/
def claimsNoHostAud : LinkedCAClaims :=
  ⟨["foo"], "subj", ["urn:smallstep:authority:11111111-1111-1111-1111-111111111111"], "aa"⟩

theorem claim_C5_counterexample :
    (goURLParse "foo").map GoURL.host = some "" ∧
    validateTokenClaims claimsNoHostAud =
      .ok (⟨"", "", "foo"⟩, "11111111-1111-1111-1111-111111111111") := by
  refine ⟨by decide, by decide⟩

/-- The arguments of one login call (linkedca.go line 91 and the closure at
line 98): authority id, raw token, CSR, private-key signer and endpoint host.
The trust pool is deliberately not part of this record: in Go it is a shared
mutable CertPool passed by reference, modelled here as an explicit pool
argument of login, so a renewal runs against whatever the pool currently
holds. -/
structure LoginArgs (K CSR : Type) where
  authority : String
  token : String
  csr : CSR
  signer : K
  endpoint : String
  deriving DecidableEq

/-- Every distinct failure exit of newLinkedCAClient (linkedca.go lines
43-116), in source order: token decoding, claim validation, key generation,
CSR creation, the root-certificate fetch (its connection/RPC stage and its
verification stage), the login exchange (its connection/RPC stage and its
response-processing stage), renewer construction, and the gRPC dial. -/
inductive ClientError
  | tokenParse
  | token (e : TokenError)
  | keygen
  | csrCreate
  | rootConnect
  | trust (e : TrustError)
  | loginConnect
  | loginFailed (e : LoginError)
  | renewerFailed
  | dialFailed
  deriving DecidableEq

/-- The fully-constructed client (linkedca.go lines 111-115), together with
the login arguments it used at line 91 (initialArgs) and the ones its renewer
closure captured at line 98 (renewArgs), and the trust pool as grown by the
initial login. -/
structure LinkedCaClient (K CSR : Type) where
  initialCert : TLSCertificate K
  initialArgs : LoginArgs K CSR
  renewArgs : LoginArgs K CSR
  pool : List Cert
  authorityID : String
  deriving DecidableEq

/-- The early return of newLinkedCAClient on an effectful step that produced
no value (each `if err != nil, return nil, ...` site whose failing step is
abstracted to an Option): the step's absence becomes the given construction
error. -/
def require {α : Type} (o : Option α) (e : ClientError) : Except ClientError α :=
  match o with
  | none => .error e
  | some a => .ok a

/-- The early return of newLinkedCAClient on a step with its own error type
(every `if err != nil, return nil, err` site): the step's error is propagated
as a client-construction error tagged by the step that raised it. -/
def liftE {ε α : Type} (f : ε → ClientError) : Except ε α → Except ClientError α
  | .error e => .error (f e)
  | .ok a => .ok a

/-- newLinkedCAClient (linkedca.go lines 43-116) as a pipeline over the
outcomes of its effectful steps: tokenClaims is the result of
jose.ParseSigned plus UnsafeClaimsWithoutVerification (none = a decoding
failure), signerRes of keyutil.GenerateDefaultSigner, csrRes of
x509util.CreateCertificateRequest, rootResp the PEM body of the
GetRootCertificate RPC (none = connect or RPC failure), loginResp the decoded
(PemCertificateChain, PemCertificate) fields of the Login RPC response (none
= connect or RPC failure), and renewerOk/dialOk whether tlsutil.NewRenewer
and grpc.Dial succeed. Every failure aborts construction with an error: no
client value, and with it no renewer and no channel, is ever produced. -/
def newLinkedCAClient {K CSR : Type} (p : List Nat → Option Cert)
    (sha256hex : List Nat → String)
    (tokenClaims : Option LinkedCAClaims) (token : String)
    (signerRes : Option K) (csrRes : Option CSR)
    (rootResp : Option (List PemBlock))
    (loginResp : Option (List PemBlock × List PemBlock))
    (renewerOk dialOk : Bool) :
    Except ClientError (LinkedCaClient K CSR) := do
  let claims ← require tokenClaims .tokenParse
  let ua ← liftE ClientError.token (validateTokenClaims claims)
  let signer ← require signerRes .keygen
  let csr ← require csrRes .csrCreate
  let blocks ← require rootResp .rootConnect
  let root ← liftE ClientError.trust (getRootCertificate p sha256hex claims.sha blocks)
  let resp ← require loginResp .loginConnect
  let certpool ← liftE ClientError.loginFailed
    (login p ua.2 token csr signer ua.1.host resp.1 resp.2 (addCert [] root))
  if renewerOk = false then .error .renewerFailed
  else if dialOk = false then .error .dialFailed
  else .ok {
    initialCert := certpool.1,
    initialArgs := ⟨ua.2, token, csr, signer, ua.1.host⟩,
    renewArgs := ⟨ua.2, token, csr, signer, ua.1.host⟩,
    pool := certpool.2,
    authorityID := ua.2 }

/-- One renewal attempt: the renewer re-invokes the login exchange (the
closure of linkedca.go lines 97-99) with the captured arguments, a fresh
server response and the current trust pool. -/
def renewLogin {K CSR : Type} (p : List Nat → Option Cert) (cl : LinkedCaClient K CSR)
    (chainBlocks leafBlocks : List PemBlock) (currentPool : List Cert) :
    Except LoginError (TLSCertificate K × List Cert) :=
  login p cl.renewArgs.authority cl.renewArgs.token cl.renewArgs.csr cl.renewArgs.signer
    cl.renewArgs.endpoint chainBlocks leafBlocks currentPool

theorem validateTokenClaims_ok (c : LinkedCAClaims) (u : GoURL) (a : String)
    (h : validateTokenClaims c = .ok (u, a)) : getAuthority c.sans = .ok a := by
  unfold validateTokenClaims at h
  by_cases hlen : c.audience.length ≠ 1
  · rw [if_pos hlen] at h; cases h
  · rw [if_neg hlen] at h
    by_cases hsha : c.sha = ""
    · rw [if_pos hsha] at h; cases h
    · rw [if_neg hsha] at h
      cases hu : goURLParse (c.audience.headD "") with
      | none => rw [hu] at h; cases h
      | some u2 =>
        rw [hu] at h
        cases ha : getAuthority c.sans with
        | error e => rw [ha] at h; cases h
        | ok a2 => rw [ha] at h; cases h; rfl

theorem bindOk {ε α β : Type} (x : Except ε α) (f : α → Except ε β) (b : β)
    (h : x >>= f = .ok b) : ∃ a, x = .ok a ∧ f a = .ok b := by
  cases x with
  | error e => simp [Bind.bind, Except.bind] at h
  | ok a => exact ⟨a, rfl, by simpa [Bind.bind, Except.bind] using h⟩

theorem require_ok {α : Type} (o : Option α) (e : ClientError) (a : α)
    (h : require o e = .ok a) : o = some a := by
  cases o with
  | none => cases h
  | some x => cases h; rfl

theorem liftE_ok {ε α : Type} (f : ε → ClientError) (x : Except ε α) (a : α)
    (h : liftE f x = .ok a) : x = .ok a := by
  cases x with
  | error e => cases h
  | ok b => cases h; rfl

theorem newLinkedCAClient_ok {K CSR : Type} (p : List Nat → Option Cert)
    (sha256hex : List Nat → String)
    (tokenClaims : Option LinkedCAClaims) (token : String)
    (signerRes : Option K) (csrRes : Option CSR)
    (rootResp : Option (List PemBlock))
    (loginResp : Option (List PemBlock × List PemBlock))
    (renewerOk dialOk : Bool) (cl : LinkedCaClient K CSR)
    (hok : newLinkedCAClient p sha256hex tokenClaims token signerRes csrRes rootResp
      loginResp renewerOk dialOk = .ok cl) :
    ∃ claims u a signer csr blocks root resp,
      tokenClaims = some claims ∧
      validateTokenClaims claims = .ok (u, a) ∧
      signerRes = some signer ∧
      csrRes = some csr ∧
      rootResp = some blocks ∧
      getRootCertificate p sha256hex claims.sha blocks = .ok root ∧
      loginResp = some resp ∧
      login p a token csr signer u.host resp.1 resp.2 (addCert [] root) =
        .ok (cl.initialCert, cl.pool) ∧
      cl.initialArgs = ⟨a, token, csr, signer, u.host⟩ ∧
      cl.renewArgs = ⟨a, token, csr, signer, u.host⟩ := by
  unfold newLinkedCAClient at hok
  obtain ⟨claims, h1, hok⟩ := bindOk _ _ _ hok
  obtain ⟨ua, h2, hok⟩ := bindOk _ _ _ hok
  obtain ⟨signer, h3, hok⟩ := bindOk _ _ _ hok
  obtain ⟨csr, h4, hok⟩ := bindOk _ _ _ hok
  obtain ⟨blocks, h5, hok⟩ := bindOk _ _ _ hok
  obtain ⟨root, h6, hok⟩ := bindOk _ _ _ hok
  obtain ⟨resp, h7, hok⟩ := bindOk _ _ _ hok
  obtain ⟨certpool, h8, hok⟩ := bindOk _ _ _ hok
  cases renewerOk with
  | false => simp at hok
  | true =>
    cases dialOk with
    | false => simp at hok
    | true =>
      simp only [Bool.true_eq_false, if_false] at hok
      cases hok
      exact ⟨claims, ua.1, ua.2, signer, csr, blocks, root, resp,
        require_ok _ _ _ h1, liftE_ok _ _ _ h2,
        require_ok _ _ _ h3, require_ok _ _ _ h4, require_ok _ _ _ h5,
        liftE_ok _ _ _ h6, require_ok _ _ _ h7, liftE_ok _ _ _ h8,
        rfl, rfl⟩

/-- C6: for every input on which the token parse fails, the SAN extraction
fails, the fingerprint-verified root fetch fails (its connection or its
scan-and-verify), or the initial login exchange fails (its connection or its
response processing, under any request arguments), newLinkedCAClient returns
an error and no client value — so no renewer is started, no channel is
created, and no partially-usable client ever exists. -/
theorem claim_C6 {K CSR : Type} (p : List Nat → Option Cert)
    (sha256hex : List Nat → String)
    (tokenClaims : Option LinkedCAClaims) (token : String)
    (signerRes : Option K) (csrRes : Option CSR)
    (rootResp : Option (List PemBlock))
    (loginResp : Option (List PemBlock × List PemBlock))
    (renewerOk dialOk : Bool)
    (hfail :
      tokenClaims = none
      ∨ (∀ claims, tokenClaims = some claims → isOkE (getAuthority claims.sans) = false)
      ∨ rootResp = none
      ∨ (∀ claims blocks, tokenClaims = some claims → rootResp = some blocks →
          isOkE (getRootCertificate p sha256hex claims.sha blocks) = false)
      ∨ loginResp = none
      ∨ (∀ (authority token2 : String) (csr : CSR) (signer : K) (endpoint : String)
           (chainBlocks leafBlocks : List PemBlock) (pool : List Cert),
          loginResp = some (chainBlocks, leafBlocks) →
          isOkE (login p authority token2 csr signer endpoint chainBlocks leafBlocks pool)
            = false)) :
    isOkE (newLinkedCAClient p sha256hex tokenClaims token signerRes csrRes rootResp
      loginResp renewerOk dialOk) = false := by
  cases hres : newLinkedCAClient p sha256hex tokenClaims token signerRes csrRes rootResp
      loginResp renewerOk dialOk with
  | error e => rfl
  | ok cl =>
    exfalso
    obtain ⟨claims, u, a, signer, csr, blocks, root, resp, h1, h2, h3, h4, h5, h6, h7,
      h8, h9, h10⟩ :=
      newLinkedCAClient_ok p sha256hex tokenClaims token signerRes csrRes rootResp
        loginResp renewerOk dialOk cl hres
    rcases hfail with hf | hf | hf | hf | hf | hf
    · rw [hf] at h1; cases h1
    · have hga := validateTokenClaims_ok claims u a h2
      have := hf claims h1
      rw [hga] at this
      simp [isOkE] at this
    · rw [hf] at h5; cases h5
    · have := hf claims blocks h1 h5
      rw [h6] at this
      simp [isOkE] at this
    · rw [hf] at h7; cases h7
    · have := hf a token csr signer u.host resp.1 resp.2 (addCert [] root)
        (by rw [h7])
      rw [h8] at this
      simp [isOkE] at this

theorem claim_C6_witness :
    isOkE (newLinkedCAClient pRaw hexBB (none : Option LinkedCAClaims) "tok"
      (some (0 : Nat)) (some (0 : Nat)) none none true true) = false :=
  claim_C6 pRaw hexBB none "tok" (some 0) (some 0) none none true true (Or.inl rfl)

/-- C8: every renewal attempt invokes the login exchange with exactly the
same arguments as the initial login except for the evolving trust pool — the
renewer closure captures the very argument record the initial login used
(same authority id, same token, same CSR, same private-key signer: no fresh
key material per renewal, same endpoint) — and a renewal is the login
exchange at those initial arguments applied to whatever the trust pool
currently holds. -/
theorem claim_C8 {K CSR : Type} (p : List Nat → Option Cert)
    (sha256hex : List Nat → String)
    (tokenClaims : Option LinkedCAClaims) (token : String)
    (signerRes : Option K) (csrRes : Option CSR)
    (rootResp : Option (List PemBlock))
    (loginResp : Option (List PemBlock × List PemBlock))
    (renewerOk dialOk : Bool) (cl : LinkedCaClient K CSR)
    (chainBlocks leafBlocks : List PemBlock) (currentPool : List Cert)
    (hok : newLinkedCAClient p sha256hex tokenClaims token signerRes csrRes rootResp
      loginResp renewerOk dialOk = .ok cl) :
    cl.renewArgs = cl.initialArgs ∧
    renewLogin p cl chainBlocks leafBlocks currentPool =
      login p cl.initialArgs.authority cl.initialArgs.token cl.initialArgs.csr
        cl.initialArgs.signer cl.initialArgs.endpoint chainBlocks leafBlocks currentPool := by
  obtain ⟨claims, u, a, signer, csr, blocks, root, resp, h1, h2, h3, h4, h5, h6, h7,
    h8, h9, h10⟩ :=
    newLinkedCAClient_ok p sha256hex tokenClaims token signerRes csrRes rootResp
      loginResp renewerOk dialOk cl hok
  have hargs : cl.renewArgs = cl.initialArgs := by rw [h9, h10]
  exact ⟨hargs, by rw [renewLogin, hargs]⟩

/-- A digest model mapping every byte list to the hex string AA (upper case,
so the witness exercises the case-insensitive comparison). -/
def hexAA : List Nat → String := fun _ => "AA"

/-- Token claims of a successful bootstrap run. -/
def tokClaimsW : LinkedCAClaims :=
  ⟨["x"], "subj", ["urn:smallstep:authority:11111111-1111-1111-1111-111111111111"], "aa"⟩

/-- The root-fetch response of the successful bootstrap run. -/
def rootRespW : Option (List PemBlock) := some [⟨"CERTIFICATE", [], [1]⟩]

/-- The login response of the successful bootstrap run: a one-certificate
chain and a leaf. -/
def loginRespW : Option (List PemBlock × List PemBlock) :=
  some ([⟨"CERTIFICATE", [], [2]⟩], [⟨"CERTIFICATE", [], [3]⟩])

/-- The client the successful bootstrap run constructs. -/
def bootClientW : LinkedCaClient Nat Nat :=
  { initialCert := ⟨[[3]], some ⟨[3]⟩, 0⟩,
    initialArgs := ⟨"11111111-1111-1111-1111-111111111111", "tok", 0, 0, ""⟩,
    renewArgs := ⟨"11111111-1111-1111-1111-111111111111", "tok", 0, 0, ""⟩,
    pool := [⟨[1]⟩, ⟨[2]⟩],
    authorityID := "11111111-1111-1111-1111-111111111111" }

theorem claim_C8_witness :
    bootClientW.renewArgs = bootClientW.initialArgs :=
  (claim_C8 pRaw hexAA (some tokClaimsW) "tok" (some 0) (some 0) rootRespW loginRespW
    true true bootClientW [] [] [] (by decide)).1

/-- A min/max/default triple of provisioner duration strings (the
X509.Durations, SSH.UserDurations and SSH.HostDurations fields read by
Claims.ToCertificates in authority/mgmt/provisioner.go lines 358-366). -/
structure DurationStrings where
  min : String
  max : String
  default : String
  deriving DecidableEq

/-- The X509 part of the management Claims value. -/
structure X509Claims where
  durations : DurationStrings
  deriving DecidableEq

/-- The SSH part of the management Claims value. -/
structure SSHClaims where
  userDurations : DurationStrings
  hostDurations : DurationStrings
  enabled : Bool
  deriving DecidableEq

/-- The management Claims value, shaped as Claims.ToCertificates reads it. -/
structure Claims where
  x509 : X509Claims
  ssh : SSHClaims
  disableRenewal : Bool
  deriving DecidableEq

/-- A value of the durs map of Claims.ToCertificates (provisioner.go lines
354-357): the duration string and the parsed duration, nil until assigned. -/
structure DurEntry (D : Type) where
  durStr : String
  dur : Option D
  deriving DecidableEq

/-- provisioner.Claims as ToCertificates fills it (provisioner.go lines
375-387): nine nullable duration fields plus the renewal and SSH flags. D is
the provisioner.Duration type, left abstract. -/
structure ProvisionerClaims (D : Type) where
  minTLSDur : Option D
  maxTLSDur : Option D
  defaultTLSDur : Option D
  disableRenewal : Option Bool
  minUserSSHDur : Option D
  maxUserSSHDur : Option D
  defaultUserSSHDur : Option D
  minHostSSHDur : Option D
  maxHostSSHDur : Option D
  defaultHostSSHDur : Option D
  enableSSHCA : Option Bool
  deriving DecidableEq

/-- The durs map literal of Claims.ToCertificates (provisioner.go lines
354-367) in declaration order, every dur field starting nil. Go map
iteration order is unspecified; the model fixes the declaration order, which
changes only which key a parse error names, never whether one occurs. -/
def claimsDurs (D : Type) (c : Claims) : List (String × DurEntry D) :=
  [("minTLSDur", ⟨c.x509.durations.min, none⟩),
   ("maxTLSDur", ⟨c.x509.durations.max, none⟩),
   ("defaultTLSDur", ⟨c.x509.durations.default, none⟩),
   ("minSSHUserDur", ⟨c.ssh.userDurations.min, none⟩),
   ("maxSSHUserDur", ⟨c.ssh.userDurations.max, none⟩),
   ("defaultSSHUserDur", ⟨c.ssh.userDurations.default, none⟩),
   ("minSSHHostDur", ⟨c.ssh.hostDurations.min, none⟩),
   ("maxSSHHostDur", ⟨c.ssh.hostDurations.max, none⟩),
   ("defaultSSHHostDur", ⟨c.ssh.hostDurations.default, none⟩)]

/-- The range loop of Claims.ToCertificates (provisioner.go lines 369-374):
parse each entry's duration string (p models provisioner.NewDuration, none
meaning a parse error); the first failure aborts with that entry's key and
string; a success is assigned to the per-iteration copy v of the map value
and so discarded — the map itself is never updated. -/
def checkDurs {D : Type} (p : String → Option D) :
    List (String × DurEntry D) → Option (String × String)
  | [] => none
  | (k, v) :: rest =>
    match p v.durStr with
    | none => some (k, v.durStr)
    | some _ => checkDurs p rest

/-- Reading durs[k].dur when the result struct is built (provisioner.go lines
376-385): a missing key reads as the zero value, nil. -/
def lookupDur {D : Type} (m : List (String × DurEntry D)) (k : String) : Option D :=
  match m.lookup k with
  | some v => v.dur
  | none => none

/-- Claims.ToCertificates (provisioner.go lines 353-388): validate all nine
duration strings, then build the provisioner.Claims from the durs map —
whose dur fields were never updated. -/
def Claims.toCertificates {D : Type} (p : String → Option D) (c : Claims) :
    Except String (ProvisionerClaims D) :=
  let durs := claimsDurs D c
  match checkDurs p durs with
  | some ks => .error ("error parsing " ++ ks.1 ++ " " ++ ks.2 ++ " from claims")
  | none =>
    .ok {
      minTLSDur := lookupDur durs "minTLSDur",
      maxTLSDur := lookupDur durs "maxTLSDur",
      defaultTLSDur := lookupDur durs "defaultTLSDur",
      disableRenewal := some c.disableRenewal,
      minUserSSHDur := lookupDur durs "minSSHUserDur",
      maxUserSSHDur := lookupDur durs "maxSSHUserDur",
      defaultUserSSHDur := lookupDur durs "defaultSSHUserDur",
      minHostSSHDur := lookupDur durs "minSSHHostDur",
      maxHostSSHDur := lookupDur durs "maxSSHHostDur",
      defaultHostSSHDur := lookupDur durs "defaultSSHHostDur",
      enableSSHCA := some c.ssh.enabled }

theorem checkDurs_eq_find {D : Type} (p : String → Option D)
    (l : List (String × DurEntry D)) :
    checkDurs p l =
      (l.find? fun kv => (p kv.2.durStr).isNone).map fun kv => (kv.1, kv.2.durStr) := by
  induction l with
  | nil => rfl
  | cons kv rest ih =>
    obtain ⟨k, v⟩ := kv
    cases hp : p v.durStr with
    | none => simp [checkDurs, hp, List.find?, Option.isNone]
    | some d => simp [checkDurs, hp, List.find?, Option.isNone, ih]

theorem lookupDur_none {D : Type} (m : List (String × DurEntry D)) (k : String)
    (hm : ∀ kv ∈ m, kv.2.dur = none) : lookupDur m k = none := by
  induction m with
  | nil => rfl
  | cons kv rest ih =>
    obtain ⟨k1, v⟩ := kv
    have hv : v.dur = none := hm (k1, v) (by simp)
    cases hk : (k == k1) with
    | true => simp [lookupDur, List.lookup, hk, hv]
    | false =>
      have hstep : lookupDur ((k1, v) :: rest) k = lookupDur rest k := by
        simp [lookupDur, List.lookup, hk]
      rw [hstep]
      exact ih fun kv hkv => hm kv (by simp [hkv])

theorem claimsDurs_dur_none {D : Type} (c : Claims) :
    ∀ kv ∈ claimsDurs D c, kv.2.dur = none := by
  intro kv hkv
  simp only [claimsDurs, List.mem_cons, List.not_mem_nil, or_false] at hkv
  rcases hkv with rfl | rfl | rfl | rfl | rfl | rfl | rfl | rfl | rfl <;> rfl

/-- C9: Claims.ToCertificates returns an error exactly when at least one of
its nine duration strings fails to parse as a provisioner duration (the
error naming the first failing entry in the model's fixed map order); and
whenever it succeeds, all nine duration fields of the returned
provisioner.Claims — min/max/default TLS, min/max/default SSH user,
min/max/default SSH host — are nil regardless of the input strings, because
each parsed duration is assigned to a per-iteration copy of the map value
and discarded; only the DisableRenewal and EnableSSHCA flags carry
information. -/
theorem claim_C9 (D : Type) (p : String → Option D) (c : Claims) :
    Claims.toCertificates p c =
      match (claimsDurs D c).find? (fun kv => (p kv.2.durStr).isNone) with
      | some kv => .error ("error parsing " ++ kv.1 ++ " " ++ kv.2.durStr ++ " from claims")
      | none =>
        .ok ⟨none, none, none, some c.disableRenewal, none, none, none, none, none, none,
          some c.ssh.enabled⟩ := by
  unfold Claims.toCertificates
  simp only [checkDurs_eq_find]
  have ha : ∀ k, lookupDur (claimsDurs D c) k = none :=
    fun k => lookupDur_none (claimsDurs D c) k (claimsDurs_dur_none c)
  cases hf : (claimsDurs D c).find? (fun kv => (p kv.2.durStr).isNone) with
  | some kv => simp
  | none => simp [ha]

end StepCerts
